import Mathlib

/-!
Shallow embedding of the plovary core (src/plovary.py): the key-layout
registry (`System`), chords, the chord parser, the renderer, and the
dictionary combinator algebra, together with theorems settling the frozen
claims about them.

Python strings are modelled as `List Char` (`Str`), so that slicing,
prefix matching and hyphen stripping are plain list operations.
-/

namespace Plovary

/-- Python strings, modelled as lists of characters. -/
abbrev Str := List Char

/-- The zone-separator marker `"-"`. -/
def hyphen : Str := ['-']

/-- Membership of a string in a list of strings (Python `x in list`). -/
def elemStr (x : Str) (l : List Str) : Bool := l.any (fun a => decide (a = x))

/-- `is_sorted` from the source: adjacent pairs are non-decreasing. -/
def isSortedNat : List Nat → Bool
  | [] => true
  | [_] => true
  | a :: b :: t => decide (a ≤ b) && isSortedNat (b :: t)

/-- Python `s.replace("-", "")`: remove every hyphen character. -/
def stripHyphens (p : Str) : Str := p.filter (fun c => decide (c ≠ '-'))

/-- Python `"-" in s`: the string contains a hyphen character. -/
def containsHyphen (s : Str) : Bool := s.any (fun c => decide (c = '-'))

/-- Python `s.endswith("-")`. -/
def endsWithHyphen (s : Str) : Bool :=
  match s.getLast? with
  | some c => decide (c = '-')
  | none => false

/-- Python `s.startswith("-")`. -/
def startsWithHyphen (s : Str) : Bool :=
  match s.head? with
  | some c => decide (c = '-')
  | none => false

/-- First-match association lookup (Python `dict` lookup on the small,
insertion-ordered replacement tables, whose keys are unique). -/
def assocFind (l : List (Str × List Str)) (k : Str) : Option (List Str) :=
  (l.find? (fun p => decide (p.1 = k))).map Prod.snd

/--
The key-layout registry, `System.__init__`'s construction inputs.
The replacement tables keep Python's `dict` insertion order as lists.
`sid` is the registry handle: Python compares registries by object
identity (`self.system is other.system`); distinct Python objects are
modelled by values with distinct `sid`.
-/
structure System where
  keyOrder : List Str
  unorderedKeys : List Str
  combiningKeys : List Str
  optionalReplacements : List (Str × List Str)
  mandatoryReplacements : List (Str × List Str)
  sid : Nat
deriving DecidableEq

/-- `all_keys = [i for i in key_order if i != "-"]`. -/
def allKeys (s : System) : List Str := s.keyOrder.filter (fun i => decide (i ≠ hyphen))

/-- `left_keys = [i for i in all_keys if i.endswith("-")]`. -/
def leftKeysS (s : System) : List Str := (allKeys s).filter endsWithHyphen

/-- `right_keys = [i for i in all_keys if i.startswith("-")]`. -/
def rightKeysS (s : System) : List Str := (allKeys s).filter startsWithHyphen

/-- `middle_keys_and_hyphen`: keys without a hyphen in their name, plus the
separator itself when it is not listed as unordered (the Python condition
`"-" not in i or i == "-" and i not in self.unordered_keys` parses as
`(not contains) or (i == "-" and i not in unordered)`). -/
def middleKeysAndHyphen (s : System) : List Str :=
  s.keyOrder.filter (fun i => !containsHyphen i || (decide (i = hyphen) && !elemStr i s.unorderedKeys))

/-- Position of the separator inside `middle_keys_and_hyphen`
(`.index("-")`; Python raises when absent, which only happens for
registries whose construction already fails). -/
def hyphenIdx (s : System) : Nat := (middleKeysAndHyphen s).findIdx (fun i => decide (i = hyphen))

/-- `left_middle_keys = middle_keys_and_hyphen[:hyphen_idx]`. -/
def leftMiddleKeysS (s : System) : List Str := (middleKeysAndHyphen s).take (hyphenIdx s)

/-- `right_middle_keys = middle_keys_and_hyphen[hyphen_idx + 1:]`. -/
def rightMiddleKeysS (s : System) : List Str := (middleKeysAndHyphen s).drop (hyphenIdx s + 1)

/-- `middle_keys = left_middle_keys + right_middle_keys`. -/
def middleKeysS (s : System) : List Str := leftMiddleKeysS s ++ rightMiddleKeysS s

/-- `expand_key`: a real key expands to itself, otherwise the optional
table is consulted before the mandatory one.  Python raises on an unknown
name; inside the parser this function is only applied to names drawn from
the pseudo-key lists and the replacement tables, where it is total, so the
unknown case defaults to `[]`. -/
def expandKey (s : System) (k : Str) : List Str :=
  if elemStr k (allKeys s) then [k]
  else match assocFind s.optionalReplacements k with
    | some v => v
    | none => (assocFind s.mandatoryReplacements k).getD []

/-- `key_unordered`: every constituent of the expansion is unordered. -/
def keyUnordered (s : System) (k : Str) : Bool :=
  (expandKey s k).all (fun i => elemStr i s.unorderedKeys)

/-- `real_key_index` / `key_order.index(key)` (total here; only applied to
keys present in `key_order`). -/
def keyOrderIndex (s : System) (k : Str) : Nat := s.keyOrder.findIdx (fun i => decide (i = k))

/-- `key_index`: index of the first non-unordered constituent, else of the
first constituent (Python indexes `[0]`, an error on an empty expansion;
such names are classified unordered and never reach this function, so the
empty case defaults to index of `""`). -/
def keyIndex (s : System) (k : Str) : Nat :=
  match (expandKey s k).find? (fun i => !elemStr i s.unorderedKeys) with
  | some i => keyOrderIndex s i
  | none => keyOrderIndex s ((expandKey s k).headD [])

/-- The replacement names participating in positional pseudo-key lists:
optional names then mandatory names, without the fully-unordered ones. -/
def replacementsList (s : System) : List Str :=
  ((s.optionalReplacements ++ s.mandatoryReplacements).map Prod.fst).filter
    (fun i => !keyUnordered s i)

/-- Stable insertion of `x` after all already-placed elements of smaller or
equal sort key (the placement Python's stable `list.sort` produces). -/
def insSortedBy (key : Str → Nat) (x : Str) : List Str → List Str
  | [] => [x]
  | y :: t => if key y ≤ key x then y :: insSortedBy key x t else x :: y :: t

/-- Stable sort by a numeric key (Python `list.sort(key=...)`). -/
def stableSortBy (key : Str → Nat) (l : List Str) : List Str :=
  l.foldl (fun acc x => insSortedBy key x acc) []

/-- `pseudo_keys_where`: the zone's real keys plus the replacement names
satisfying the predicate, stably sorted by `key_index`. -/
def pseudoKeysWhere (s : System) (base : List Str) (pred : Str → Bool) : List Str :=
  stableSortBy (keyIndex s) (base ++ (replacementsList s).filter pred)

/-- Character-membership test used by the zone predicates: Python
`any(j in left_middle_keys for j in i)` iterates the characters of the
name `i` and tests each one-character string against the key list. -/
def anyCharInLeftMiddle (s : System) (i : Str) : Bool :=
  i.any (fun c => elemStr [c] (leftMiddleKeysS s))

/-- `left_pseudo_keys`. -/
def leftPseudoKeys (s : System) : List Str :=
  pseudoKeysWhere s (leftKeysS s) endsWithHyphen

/-- `left_middle_pseudo_keys`. -/
def leftMiddlePseudoKeys (s : System) : List Str :=
  pseudoKeysWhere s (leftMiddleKeysS s)
    (fun i => !containsHyphen i && anyCharInLeftMiddle s i)

/-- `right_middle_pseudo_keys`. -/
def rightMiddlePseudoKeys (s : System) : List Str :=
  pseudoKeysWhere s (rightMiddleKeysS s)
    (fun i => !containsHyphen i && !anyCharInLeftMiddle s i)

/-- `right_pseudo_keys`. -/
def rightPseudoKeys (s : System) : List Str :=
  pseudoKeysWhere s (rightKeysS s) startsWithHyphen

/-- `all_unordered` inside `parse`: the unordered keys plus every
replacement name whose whole expansion is unordered. -/
def allUnordered (s : System) : List Str :=
  s.unorderedKeys ++
    ((s.optionalReplacements ++ s.mandatoryReplacements).map Prod.fst).filter (keyUnordered s)

/-- `real_keys_ordered` on a list of real keys: drop the unordered ones and
check the `key_order` indices are non-decreasing. -/
def realKeysOrderedL (s : System) (keys : List Str) : Bool :=
  isSortedNat ((keys.filter (fun i => !elemStr i s.unorderedKeys)).map (keyOrderIndex s))

/-- A chord: an immutable set of real keys tied to one registry value
(`Chord.__init__` stores the system and a `frozenset` of keys). -/
structure Chord where
  system : System
  keys : Finset Str
deriving DecidableEq

/-- `system.chord(*keys)`: expand each key and collect the real keys into a
set.  The constructor's real-key assertion holds on every call site
modelled here (the arguments are always real keys of the system). -/
def sysChord (s : System) (keys : List Str) : Chord :=
  ⟨s, (keys.flatMap (expandKey s)).toFinset⟩

/-- `system.empty_chord` (`self.chord()`). -/
def emptyChord (s : System) : Chord := ⟨s, ∅⟩

/-- `set(self.system.combining_keys)`. -/
def combiningFinset (s : System) : Finset Str := s.combiningKeys.toFinset

/-- Chord equality, `Chord.__eq__`: key sets only — the registry is not
consulted (and no failure is possible). -/
def chordEqB (a b : Chord) : Bool := decide (a.keys = b.keys)

/-- `overlaps`: requires the identical registry, else fails (`None`). -/
def overlapsO (a b : Chord) : Option Bool :=
  if a.system = b.system then some (decide ((a.keys ∩ b.keys).Nonempty)) else none

/-- `overlaps_noncombining`: like `overlaps` but ignoring the combining
keys (`self.keys & other.keys - set(combining_keys)`). -/
def overlapsNoncombiningO (a b : Chord) : Option Bool :=
  if a.system = b.system then
    some (decide (((a.keys ∩ b.keys) \ combiningFinset a.system).Nonempty))
  else none

/-- `is_superset`: requires the identical registry. -/
def isSupersetO (a b : Chord) : Option Bool :=
  if a.system = b.system then some (decide (b.keys ⊆ a.keys)) else none

/-- `mask`: plain key-set intersection.  The source performs no
`assert_same_system` here; the result lives in `a`'s registry. -/
def maskC (a b : Chord) : Chord := ⟨a.system, a.keys ∩ b.keys⟩

/-- `lax_combine`: union after the same-registry assertion. -/
def laxCombineO (a b : Chord) : Option Chord :=
  if a.system = b.system then some ⟨a.system, a.keys ∪ b.keys⟩ else none

/-- `combine`: fails when `overlaps_noncombining` (which itself fails on
different registries), else `lax_combine`. -/
def combineO (a b : Chord) : Option Chord :=
  match overlapsNoncombiningO a b with
  | none => none
  | some true => none
  | some false => laxCombineO a b

/-- `lax_remove`: set difference after the same-registry assertion. -/
def laxRemoveO (a b : Chord) : Option Chord :=
  if a.system = b.system then some ⟨a.system, a.keys \ b.keys⟩ else none

/-- `remove`: fails unless `is_superset` (which fails on different
registries), else `lax_remove`. -/
def removeO (a b : Chord) : Option Chord :=
  match isSupersetO a b with
  | none => none
  | some false => none
  | some true => laxRemoveO a b

/-- `Chord._to_str`: substitute every fully matched replacement name,
render the uncovered keys literally, append the separator when right-zone
keys are present without middle-zone keys, sort by effective order index
and join the hyphen-stripped texts.  The chord's key set is iterated in
`key_order` order; since distinct real keys have distinct order indices
and a replacement name never ties with an uncovered real key, the final
stable sort makes that canonical choice equivalent to Python's arbitrary
`frozenset` iteration order. -/
def toStr (c : Chord) (repl : List (Str × List Str)) : Str :=
  let matching := repl.filter (fun p => decide (p.2.toFinset ⊆ c.keys))
  let covered := fun (i : Str) => matching.any (fun p => elemStr i p.2)
  let rawKeys := c.system.keyOrder.filter
    (fun k => decide (k ≠ hyphen) && decide (k ∈ c.keys) && !covered k)
  let needsDash :=
    decide ((c.keys ∩ (rightKeysS c.system).toFinset).Nonempty) &&
      decide (c.keys ∩ (middleKeysS c.system).toFinset = ∅)
  let outputs := matching.map Prod.fst ++ rawKeys ++ (if needsDash then [hyphen] else [])
  let sorted := stableSortBy
    (fun x => if x = hyphen then keyOrderIndex c.system hyphen else keyIndex c.system x)
    outputs
  sorted.flatMap (fun i => if i = hyphen then hyphen else stripHyphens i)

/-- `Chord.plover_str`: rendering with the mandatory replacements. -/
def ploverStr (c : Chord) : Str := toStr c c.system.mandatoryReplacements

/-- The parser's scan state: remaining text and consumed real keys. -/
structure ScanSt where
  left : Str
  out : List Str
deriving DecidableEq

/-- `try_consume_one`: match the hyphen-stripped pseudo-key text as a
prefix of the remaining input; on success drop it and append the
expansion. -/
def tryConsumeOne (s : System) (p : Str) (st : ScanSt) : ScanSt × Bool :=
  let w := stripHyphens p
  if w.isPrefixOf st.left then
    (⟨st.left.drop w.length, st.out ++ expandKey s p⟩, true)
  else (st, false)

/-- One pass of `try_consume_unordered`'s loop body: attempt every
unordered pseudo key once, reporting whether any was consumed. -/
def drainPass (s : System) (st : ScanSt) : ScanSt × Bool :=
  (allUnordered s).foldl
    (fun acc p =>
      let r := tryConsumeOne s p acc.1
      (r.1, acc.2 || r.2))
    (st, false)

/-- Fuelled repetition of `drainPass` until a pass consumes nothing. -/
def drainAux (s : System) : Nat → ScanSt → ScanSt
  | 0, st => st
  | n + 1, st =>
      let r := drainPass s st
      if r.2 then drainAux s n r.1 else r.1

/-- `try_consume_unordered`.  Each consuming pass of the Python loop
shortens the remaining text as long as every unordered token has a
nonempty hyphen-stripped text, so `left.length + 1` passes reproduce the
loop exactly in that case (with an empty-stripped unordered token the
Python loop never terminates). -/
def drain (s : System) (st : ScanSt) : ScanSt :=
  drainAux s (st.left.length + 1) st

/-- `try_consume_all`: for each positional pseudo key, first drain the
unordered ones, then attempt the positional key once. -/
def consumeAll (s : System) (keys : List Str) (st : ScanSt) : ScanSt :=
  keys.foldl (fun st p => (tryConsumeOne s p (drain s st)).1) st

/-- The whole left-to-right scan of `System.parse`: left and left-middle
zones, a drain, one optional separator character, right-middle and right
zones, a final drain. -/
def scanChord (s : System) (input : Str) : ScanSt :=
  let st1 := consumeAll s (leftPseudoKeys s ++ leftMiddlePseudoKeys s) ⟨input, []⟩
  let st2 := drain s st1
  let st3 := if startsWithHyphen st2.left then { st2 with left := st2.left.drop 1 } else st2
  let st4 := consumeAll s (rightMiddlePseudoKeys s ++ rightPseudoKeys s) st3
  drain s st4

/-- `hyphen_maybe_missing`: no separator in the input, no middle-zone keys
in the result, but right-zone keys present. -/
def missingSepCond (s : System) (input : Str) (out : List Str) : Bool :=
  !containsHyphen input &&
    decide (out.toFinset ∩ (middleKeysS s).toFinset = ∅) &&
    decide ((out.toFinset ∩ (rightKeysS s).toFinset).Nonempty)

/-- `System.parse`.  An error (`ValueError`) carries the
`hyphen_maybe_missing` flag that selects the dedicated missing-separator
diagnostic; a success carries the chord and the Boolean steno-order
warning flag (the warning is written to the diagnostic sink and the chord
is returned regardless). -/
def parseChord (s : System) (input : Str) : Except Bool (Chord × Bool) :=
  let st := scanChord s input
  let hmm := missingSepCond s input st.out
  if hmm || decide (st.left ≠ []) then Except.error hmm
  else Except.ok (sysChord s st.out, !realKeysOrderedL s st.out)

/-!
The dictionary (`Dictionary`, an insertion-ordered finite map, modelled as
an association list).  Python compares keys with `__eq__`; every key type
used by the claims compares by a projection (`Chord.__eq__` compares the
key sets, tuples compare componentwise), so the operations are
parametrised by that projection `f` and keys `a`, `b` are "equal" when
`f a = f b`.
-/

/-- Python `k in dict`. -/
def containsKeyB {K V R : Type} [DecidableEq R] (f : K → R)
    (d : List (K × V)) (k : K) : Bool :=
  d.any (fun p => decide (f p.1 = f k))

/-- Python `dict[k] = v`: replace the value in place when the key is
present (the stored key object is kept), else append a new entry. -/
def dinsert {K V R : Type} [DecidableEq R] (f : K → R)
    (d : List (K × V)) (k : K) (v : V) : List (K × V) :=
  if containsKeyB f d k then
    d.map (fun p => if f p.1 = f k then (p.1, v) else p)
  else d ++ [(k, v)]

/-- `Dictionary.__init__` on an iterable of pairs: insert left to right,
counting the duplicate-key warnings (`warn` fires exactly when the key is
already present; the insertion then overwrites, last write wins). -/
def fromPairsAux {K V R : Type} [DecidableEq R] (f : K → R) :
    List (K × V) → Nat → List (K × V) → List (K × V) × Nat
  | d, w, [] => (d, w)
  | d, w, (k, v) :: t =>
      fromPairsAux f (dinsert f d k v) (w + if containsKeyB f d k then 1 else 0) t

/-- `Dictionary(iterable)`: the resulting entry list and the number of
duplicate-key warnings emitted. -/
def fromPairs {K V R : Type} [DecidableEq R] (f : K → R)
    (l : List (K × V)) : List (K × V) × Nat :=
  fromPairsAux f [] 0 l

/-- `Dictionary.__add__` with a `Dictionary` argument
(`Dictionary(chain(self, other))`). -/
def dictAdd {K V R : Type} [DecidableEq R] (f : K → R)
    (A B : List (K × V)) : List (K × V) × Nat :=
  fromPairs f (A ++ B)

/-- Python `dict[k]` as an `Option` (`None` = `KeyError`). -/
def dlookup {K V R : Type} [DecidableEq R] (f : K → R)
    (d : List (K × V)) (k : K) : Option V :=
  (d.find? (fun p => decide (f p.1 = f k))).map Prod.snd

/-- Number of entries whose key equals `k`. -/
def countKey {K V R : Type} [DecidableEq R] (f : K → R)
    (d : List (K × V)) (k : K) : Nat :=
  (d.filter (fun p => decide (f p.1 = f k))).length

/-- A dictionary invariant: pairwise distinct keys (every constructed
`Dictionary` satisfies it, its backing store being a Python `dict`). -/
def FreshKeys {K V R : Type} (f : K → R) (d : List (K × V)) : Prop :=
  List.Pairwise (fun p q => f p.1 ≠ f q.1) d

/-- The key projection realising `Chord.__eq__`. -/
def chordKeysProj (c : Chord) : Finset Str := c.keys

/-- `crossProduct`'s row-major pair list: the generator
`((keys(kl, kr), values(vl, vr)) for kl, vl in self for kr, vr in other)`. -/
def prodList {K V K2 V2 K3 V3 : Type} (keyC : K → K2 → K3) (valC : V → V2 → V3) :
    List (K × V) → List (K2 × V2) → List (K3 × V3)
  | [], _ => []
  | p :: t, B => B.map (fun q => (keyC p.1 q.1, valC p.2 q.2)) ++ prodList keyC valC t B

/-- `Dictionary.combinations`: a new dictionary built from the row-major
pair list (duplicate combined keys warn and overwrite, as in any
construction from an iterable). -/
def combinations {K V K2 V2 K3 V3 R : Type} [DecidableEq R] (f : K3 → R)
    (keyC : K → K2 → K3) (valC : V → V2 → V3)
    (A : List (K × V)) (B : List (K2 × V2)) : List (K3 × V3) × Nat :=
  fromPairs f (prodList keyC valC A B)

/-- `System.toggle` with a chord argument: the Python `dict` literal
`{as_chord: value, empty_chord: default}` inserts the two entries in
order (a literal passed to `Dictionary` directly emits no warnings). -/
def toggleD {V : Type} (s : System) (k : Chord) (v d : V) : List (Chord × V) :=
  dinsert chordKeysProj (dinsert chordKeysProj [] k v) (emptyChord s) d

/-- A dictionary key that is either a single chord or a chord tuple (the
duck-typed `Union[Chord, Tuple[Chord, ...]]`). -/
inductive DKey where
  | single (c : Chord)
  | multi (cs : List Chord)
deriving DecidableEq

/-- The projection realising Python equality on such keys: chords compare
by key set, tuples compare componentwise by key set, and a chord never
equals a tuple (`Chord.__eq__` returns `NotImplemented` there). -/
def dkeyProj : DKey → Finset Str ⊕ List (Finset Str)
  | .single c => .inl c.keys
  | .multi cs => .inr (cs.map Chord.keys)

/-- `Dictionary.__contains__`: a chord is also looked up as its
one-element tuple, and a one-element chord tuple also as its chord. -/
def containsD {V : Type} (d : List (DKey × V)) (k : DKey) : Bool :=
  match k with
  | .single c => containsKeyB dkeyProj d (.multi [c]) || containsKeyB dkeyProj d k
  | .multi [c] => containsKeyB dkeyProj d (.single c) || containsKeyB dkeyProj d k
  | _ => containsKeyB dkeyProj d k

/-- `Dictionary.__getitem__` with the same single/tuple aliasing. -/
def getItemD {V : Type} (d : List (DKey × V)) (k : DKey) : Option V :=
  match k with
  | .single c =>
      if containsKeyB dkeyProj d (.multi [c]) then dlookup dkeyProj d (.multi [c])
      else dlookup dkeyProj d k
  | .multi [c] =>
      if containsKeyB dkeyProj d (.single c) then dlookup dkeyProj d (.single c)
      else dlookup dkeyProj d k
  | _ => dlookup dkeyProj d k

/-- The two `ValueError` sites of `System.__init__`: `.index("-")` on a
separator-less `middle_keys_and_hyphen`, and `assert_real_keys_ordered`
over a replacement rule's constituents. -/
inductive SysErr where
  | noSeparator
  | badReplacement
deriving DecidableEq

/-- `assert_real_keys_ordered(*rule)` as a check: every constituent is a
real key (else `assert_real_key` raises) and the non-unordered
constituents are in steno order. -/
def ruleOk (s : System) (rule : List Str) : Bool :=
  rule.all (fun k => elemStr k (allKeys s)) &&
    isSortedNat ((rule.filter (fun k => !elemStr k s.unorderedKeys)).map (keyOrderIndex s))

/-- `System.__init__`: the separator must be locatable, then each optional
and mandatory replacement rule is checked; nothing else is validated — in
particular the unordered-keys and combining-keys lists are accepted as
given. -/
def systemInit (keyOrder unordered combining : List Str)
    (opt mand : List (Str × List Str)) (sid : Nat) : Except SysErr System :=
  let s : System := ⟨keyOrder, unordered, combining, opt, mand, sid⟩
  if ¬ elemStr hyphen (middleKeysAndHyphen s) then Except.error SysErr.noSeparator
  else if ¬ (opt ++ mand).all (fun p => ruleOk s p.2) then Except.error SysErr.badReplacement
  else Except.ok s

/-!
Concrete registries used by the witnesses and counterexamples.
-/

/-- The spec's scenario registry: real keys `S-`, `T-`, `A`, `-F`, no
unordered or combining keys, no replacements. -/
def scenarioSys : System :=
  ⟨["S-".toList, "T-".toList, "A".toList, "-".toList, "-F".toList], [], [], [], [], 0⟩

/-- All 16 key subsets of the scenario registry. -/
def scenarioSubsets : List (List Str) :=
  [[], ["S-".toList], ["T-".toList], ["A".toList], ["-F".toList],
   ["S-".toList, "T-".toList], ["S-".toList, "A".toList], ["S-".toList, "-F".toList],
   ["T-".toList, "A".toList], ["T-".toList, "-F".toList], ["A".toList, "-F".toList],
   ["S-".toList, "T-".toList, "A".toList], ["S-".toList, "T-".toList, "-F".toList],
   ["S-".toList, "A".toList, "-F".toList], ["T-".toList, "A".toList, "-F".toList],
   ["S-".toList, "T-".toList, "A".toList, "-F".toList]]

/-- The round trip at one chord of the scenario registry: rendering,
re-parsing and re-rendering reproduces the rendered text. -/
def scenarioRoundtrip (ks : List Str) : Bool :=
  let x := sysChord scenarioSys ks
  match parseChord scenarioSys (ploverStr x) with
  | .ok (y, _) => decide (ploverStr y = ploverStr x)
  | .error _ => false

/-- A registry on which the round trip fails: keys `A` and `AB`, whose
rendered texts are prefix-ambiguous for the greedy scanner. -/
def cexSys : System := ⟨["A".toList, "AB".toList, "-".toList], [], [], [], [], 0⟩

/-- All 4 key subsets of `cexSys`. -/
def cexSubsets : List (List Str) :=
  [[], ["A".toList], ["AB".toList], ["A".toList, "AB".toList]]

/-- A registry with an empty-named optional replacement: parsing the
empty string consumes the empty token and returns a nonempty chord. -/
def emptyNameSys : System :=
  ⟨["A".toList, "-".toList], [], [], [("".toList, ["A".toList])], [], 0⟩

/-- Two registries with identical configuration but distinct handles
(distinct Python objects). -/
def sysOne : System := ⟨["A".toList, "-".toList], [], [], [], [], 0⟩

/-- See `sysOne`. -/
def sysTwo : System := ⟨["A".toList, "-".toList], [], [], [], [], 1⟩

/-- The scenario chord `{S-}`. -/
def chordS : Chord := sysChord scenarioSys ["S-".toList]

/-- The scenario chord `{T-}`. -/
def chordT : Chord := sysChord scenarioSys ["T-".toList]

/-- The scenario chord `{A}`. -/
def chordA : Chord := sysChord scenarioSys ["A".toList]

/-- The scenario chord `{-F}`. -/
def chordF : Chord := sysChord scenarioSys ["-F".toList]

/-- A concrete chord dictionary `{S-: 10, A: 11}`. -/
def exA : List (Chord × Nat) := [(chordS, 10), (chordA, 11)]

/-- A concrete chord dictionary `{S-: 20, -F: 21}` sharing the key `S-`
with `exA` under a different value. -/
def exB : List (Chord × Nat) := [(chordS, 20), (chordF, 21)]

/-- A concrete cross-product operand `{S-: 1, T-: 2}`. -/
def exCA : List (Chord × Nat) := [(chordS, 1), (chordT, 2)]

/-- A concrete cross-product operand `{-F: 3}`. -/
def exCB : List (Chord × Nat) := [(chordF, 3)]

/-- A dictionary storing a one-element chord tuple and a bare chord. -/
def exD : List (DKey × Nat) := [(.multi [chordS], 5), (.single chordT, 7)]

instance {ε α : Type} [DecidableEq ε] [DecidableEq α] : DecidableEq (Except ε α) := fun a b =>
  match a, b with
  | .error x, .error y =>
      if h : x = y then .isTrue (by rw [h]) else .isFalse (fun hc => h (Except.error.inj hc))
  | .ok x, .ok y =>
      if h : x = y then .isTrue (by rw [h]) else .isFalse (fun hc => h (Except.ok.inj hc))
  | .error _, .ok _ => .isFalse (fun hc => Except.noConfusion hc)
  | .ok _, .error _ => .isFalse (fun hc => Except.noConfusion hc)

/-!
Lemmas about the association-list dictionary.
-/

lemma elemStr_iff (x : Str) (l : List Str) : elemStr x l = true ↔ x ∈ l := by
  simp [elemStr, List.any_eq_true]

section DictLemmas

variable {K V R : Type} [DecidableEq R] (f : K → R)

lemma dlookup_cons (p : K × V) (t : List (K × V)) (k : K) :
    dlookup f (p :: t) k = if f p.1 = f k then some p.2 else dlookup f t k := by
  by_cases h : f p.1 = f k
  · simp [dlookup, List.find?_cons_of_pos, h]
  · simp only [dlookup, if_neg h]
    rw [List.find?_cons_of_neg]
    simp [h]

lemma containsKeyB_cons (p : K × V) (t : List (K × V)) (k : K) :
    containsKeyB f (p :: t) k = (decide (f p.1 = f k) || containsKeyB f t k) := by
  simp [containsKeyB]

lemma containsKeyB_append (d₁ d₂ : List (K × V)) (k : K) :
    containsKeyB f (d₁ ++ d₂) k = (containsKeyB f d₁ k || containsKeyB f d₂ k) := by
  simp [containsKeyB]

lemma containsKeyB_iff (d : List (K × V)) (k : K) :
    containsKeyB f d k = true ↔ ∃ p ∈ d, f p.1 = f k := by
  simp [containsKeyB, List.any_eq_true]

lemma containsKeyB_false_iff (d : List (K × V)) (k : K) :
    containsKeyB f d k = false ↔ ∀ p ∈ d, f p.1 ≠ f k := by
  rw [← Bool.not_eq_true, containsKeyB_iff]
  push_neg
  rfl

lemma containsKeyB_congr (d : List (K × V)) {k k' : K} (h : f k' = f k) :
    containsKeyB f d k' = containsKeyB f d k := by
  simp [containsKeyB, h]

lemma containsKeyB_of_dlookup (d : List (K × V)) (k : K) (v : V)
    (h : dlookup f d k = some v) : containsKeyB f d k = true := by
  induction d with
  | nil => simp [dlookup] at h
  | cons p t ih =>
    rw [dlookup_cons] at h
    rw [containsKeyB_cons]
    by_cases hp : f p.1 = f k
    · simp [hp]
    · rw [if_neg hp] at h
      simp [ih h]

lemma dinsert_of_not_contains (d : List (K × V)) (k : K) (v : V)
    (h : containsKeyB f d k = false) : dinsert f d k v = d ++ [(k, v)] := by
  simp [dinsert, h]

lemma containsKeyB_map_replace (d : List (K × V)) (k' k : K) (v : V) :
    containsKeyB f (d.map (fun p => if f p.1 = f k' then (p.1, v) else p)) k =
      containsKeyB f d k := by
  induction d with
  | nil => rfl
  | cons p t ih =>
    by_cases hp : f p.1 = f k' <;>
      simp [containsKeyB_cons, hp, ih]

lemma containsKeyB_dinsert (d : List (K × V)) (k' k : K) (v : V) :
    containsKeyB f (dinsert f d k' v) k =
      (containsKeyB f d k || decide (f k' = f k)) := by
  by_cases hc : containsKeyB f d k'
  · rw [dinsert, if_pos hc, containsKeyB_map_replace]
    by_cases hk : f k' = f k
    · have : containsKeyB f d k = true := by rw [← containsKeyB_congr f d hk]; exact hc
      simp [this, hk]
    · simp [hk]
  · rw [dinsert, if_neg hc, containsKeyB_append, containsKeyB_cons]
    simp [containsKeyB]

lemma dlookup_map_replace (d : List (K × V)) (k' k : K) (v : V) (h : f k' ≠ f k) :
    dlookup f (d.map (fun p => if f p.1 = f k' then (p.1, v) else p)) k =
      dlookup f d k := by
  induction d with
  | nil => rfl
  | cons p t ih =>
    by_cases hp : f p.1 = f k'
    · have hpk : ¬ f p.1 = f k := fun he => h (hp.symm.trans he)
      rw [List.map_cons, if_pos hp, dlookup_cons, dlookup_cons, if_neg hpk, if_neg hpk]
      exact ih
    · by_cases hpk : f p.1 = f k
      · rw [List.map_cons, if_neg hp, dlookup_cons, dlookup_cons, if_pos hpk, if_pos hpk]
      · rw [List.map_cons, if_neg hp, dlookup_cons, dlookup_cons, if_neg hpk, if_neg hpk]
        exact ih

lemma dlookup_append_single (d : List (K × V)) (k' k : K) (v : V) (h : f k' ≠ f k) :
    dlookup f (d ++ [(k', v)]) k = dlookup f d k := by
  induction d with
  | nil => simp [dlookup_cons, dlookup, h]
  | cons p t ih =>
    by_cases hp : f p.1 = f k <;> simp [List.cons_append, dlookup_cons, hp, ih]

lemma dlookup_dinsert_other (d : List (K × V)) (k' k : K) (v : V) (h : f k' ≠ f k) :
    dlookup f (dinsert f d k' v) k = dlookup f d k := by
  by_cases hc : containsKeyB f d k'
  · rw [dinsert, if_pos hc, dlookup_map_replace f d k' k v h]
  · rw [dinsert, if_neg hc, dlookup_append_single f d k' k v h]

lemma dlookup_dinsert_matching (d : List (K × V)) (k' k : K) (v : V)
    (hc : containsKeyB f d k' = true) (hk : f k' = f k) :
    dlookup f (dinsert f d k' v) k = some v := by
  rw [dinsert, if_pos hc]
  induction d with
  | nil => simp [containsKeyB] at hc
  | cons p t ih =>
    by_cases hp : f p.1 = f k'
    · have hpk : f p.1 = f k := hp.trans hk
      rw [List.map_cons, if_pos hp, dlookup_cons, if_pos hpk]
    · have hpk : ¬ f p.1 = f k := fun he => hp (he.trans hk.symm)
      rw [containsKeyB_cons, decide_eq_false hp, Bool.false_or] at hc
      rw [List.map_cons, if_neg hp, dlookup_cons, if_neg hpk]
      exact ih hc

lemma freshKeys_dinsert (d : List (K × V)) (k : K) (v : V)
    (hd : FreshKeys f d) : FreshKeys f (dinsert f d k v) := by
  by_cases hc : containsKeyB f d k
  · rw [dinsert, if_pos hc]
    rw [FreshKeys, List.pairwise_map]
    refine hd.imp ?_
    intro a b hab
    have ha : (if f a.1 = f k then (a.1, v) else a).1 = a.1 := by split <;> rfl
    have hb : (if f b.1 = f k then (b.1, v) else b).1 = b.1 := by split <;> rfl
    rw [ha, hb]
    exact hab
  · rw [dinsert, if_neg hc]
    rw [FreshKeys, List.pairwise_append]
    refine ⟨hd, List.pairwise_singleton _ _, ?_⟩
    intro a ha b hb
    simp only [List.mem_singleton] at hb
    subst hb
    exact (containsKeyB_false_iff f d k).mp (Bool.not_eq_true _ ▸ hc) a ha

lemma fromPairsAux_append_eq (l₁ l₂ : List (K × V)) :
    ∀ (d : List (K × V)) (w : Nat),
      fromPairsAux f d w (l₁ ++ l₂) =
        fromPairsAux f (fromPairsAux f d w l₁).1 (fromPairsAux f d w l₁).2 l₂ := by
  induction l₁ with
  | nil => intro d w; rfl
  | cons p t ih =>
    intro d w
    obtain ⟨k, v⟩ := p
    simp only [List.cons_append, fromPairsAux]
    exact ih _ _

lemma fromPairsAux_fresh (l : List (K × V)) :
    ∀ (d : List (K × V)) (w : Nat), FreshKeys f l →
      (∀ p ∈ l, containsKeyB f d p.1 = false) →
      fromPairsAux f d w l = (d ++ l, w) := by
  induction l with
  | nil => intro d w _ _; simp [fromPairsAux]
  | cons p t ih =>
    intro d w hl hdl
    obtain ⟨k, v⟩ := p
    have hc : containsKeyB f d k = false := hdl (k, v) (List.mem_cons_self _ _)
    have hstep : fromPairsAux f d w ((k, v) :: t) = fromPairsAux f (d ++ [(k, v)]) w t := by
      simp [fromPairsAux, hc, dinsert_of_not_contains f d k v hc]
    have htail : ∀ q ∈ t, containsKeyB f (d ++ [(k, v)]) q.1 = false := by
      intro q hq
      have hfr : f k ≠ f q.1 := (List.pairwise_cons.mp hl).1 q hq
      rw [containsKeyB_append, hdl q (List.mem_cons_of_mem _ hq), Bool.false_or,
        containsKeyB_cons, decide_eq_false hfr]
      simp [containsKeyB]
    rw [hstep, ih (d ++ [(k, v)]) w hl.of_cons htail]
    simp

lemma fromPairsAux_warn_ge (l : List (K × V)) :
    ∀ (d : List (K × V)) (w : Nat), w ≤ (fromPairsAux f d w l).2 := by
  induction l with
  | nil => intro d w; exact Nat.le_refl w
  | cons p t ih =>
    intro d w
    obtain ⟨k, v⟩ := p
    simp only [fromPairsAux]
    exact Nat.le_trans (Nat.le_add_right _ _) (ih _ _)

lemma containsKeyB_fromPairsAux (l : List (K × V)) (k : K) :
    ∀ (d : List (K × V)) (w : Nat),
      containsKeyB f (fromPairsAux f d w l).1 k =
        (containsKeyB f d k || l.any (fun p => decide (f p.1 = f k))) := by
  induction l with
  | nil => intro d w; simp [fromPairsAux]
  | cons p t ih =>
    intro d w
    obtain ⟨k', v'⟩ := p
    simp only [fromPairsAux, List.any_cons]
    rw [ih _ _, containsKeyB_dinsert]
    simp [Bool.or_assoc]

lemma freshKeys_fromPairsAux (l : List (K × V)) :
    ∀ (d : List (K × V)) (w : Nat), FreshKeys f d →
      FreshKeys f (fromPairsAux f d w l).1 := by
  induction l with
  | nil => intro d w hd; exact hd
  | cons p t ih =>
    intro d w hd
    simp only [fromPairsAux]
    exact ih _ _ (freshKeys_dinsert f d p.1 p.2 hd)

lemma dlookup_fromPairsAux_nomatch (l : List (K × V)) (k : K) :
    ∀ (d : List (K × V)) (w : Nat), (∀ p ∈ l, f p.1 ≠ f k) →
      dlookup f (fromPairsAux f d w l).1 k = dlookup f d k := by
  induction l with
  | nil => intro d w _; rfl
  | cons p t ih =>
    intro d w h
    simp only [fromPairsAux]
    rw [ih _ _ (fun q hq => h q (List.mem_cons_of_mem _ hq)),
      dlookup_dinsert_other f d p.1 k p.2 (h p (List.mem_cons_self _ _))]

lemma countKey_cons (p : K × V) (t : List (K × V)) (k : K) :
    countKey f (p :: t) k = (if f p.1 = f k then 1 else 0) + countKey f t k := by
  by_cases hp : f p.1 = f k <;> simp [countKey, List.filter_cons, hp, Nat.add_comm]

lemma countKey_eq_zero (d : List (K × V)) (k : K)
    (h : ∀ q ∈ d, f q.1 ≠ f k) : countKey f d k = 0 := by
  induction d with
  | nil => rfl
  | cons p t ih =>
    rw [countKey_cons, if_neg (h p (List.mem_cons_self _ _)), Nat.zero_add]
    exact ih (fun q hq => h q (List.mem_cons_of_mem _ hq))

lemma countKey_eq_one (d : List (K × V)) (k : K)
    (hd : FreshKeys f d) (hc : containsKeyB f d k = true) : countKey f d k = 1 := by
  induction d with
  | nil => simp [containsKeyB] at hc
  | cons p t ih =>
    rw [countKey_cons]
    by_cases hp : f p.1 = f k
    · have htno : ∀ q ∈ t, f q.1 ≠ f k := by
        intro q hq he
        exact (List.pairwise_cons.mp hd).1 q hq (hp.trans he.symm)
      rw [if_pos hp, countKey_eq_zero f t k htno]
    · rw [containsKeyB_cons, decide_eq_false hp, Bool.false_or] at hc
      rw [if_neg hp, Nat.zero_add]
      exact ih hd.of_cons hc

lemma fromPairsAux_override (B : List (K × V)) (k : K) (vb : V) :
    ∀ (d : List (K × V)) (w : Nat), FreshKeys f d → FreshKeys f B →
      containsKeyB f d k = true → dlookup f B k = some vb →
      dlookup f (fromPairsAux f d w B).1 k = some vb ∧
        countKey f (fromPairsAux f d w B).1 k = 1 ∧
        w + 1 ≤ (fromPairsAux f d w B).2 := by
  induction B with
  | nil =>
    intro d w _ _ _ hlb
    simp [dlookup] at hlb
  | cons p t ih =>
    intro d w hd hB hc hlB
    obtain ⟨k', v'⟩ := p
    by_cases hp : f k' = f k
    · have hvb : v' = vb := by
        rw [dlookup_cons, if_pos hp] at hlB
        exact Option.some.inj hlB
      have htno : ∀ q ∈ t, f q.1 ≠ f k := by
        intro q hq he
        exact (List.pairwise_cons.mp hB).1 q hq (hp.trans he.symm)
      have hck' : containsKeyB f d k' = true := by
        rw [containsKeyB_congr f d hp]; exact hc
      simp only [fromPairsAux, hck', if_true]
      refine ⟨?_, ?_, ?_⟩
      · rw [dlookup_fromPairsAux_nomatch f t k _ _ htno,
          dlookup_dinsert_matching f d k' k v' hck' hp, hvb]
      · have hfr : FreshKeys f (fromPairsAux f (dinsert f d k' v') (w + 1) t).1 :=
          freshKeys_fromPairsAux f t _ _ (freshKeys_dinsert f d k' v' hd)
        have hcc : containsKeyB f (fromPairsAux f (dinsert f d k' v') (w + 1) t).1 k = true := by
          rw [containsKeyB_fromPairsAux, containsKeyB_dinsert]
          simp [hc]
        exact countKey_eq_one f _ k hfr hcc
      · exact fromPairsAux_warn_ge f t _ _
    · have hlB' : dlookup f t k = some vb := by
        rw [dlookup_cons, if_neg hp] at hlB
        exact hlB
      have hc' : containsKeyB f (dinsert f d k' v') k = true := by
        rw [containsKeyB_dinsert]
        simp [hc]
      simp only [fromPairsAux]
      obtain ⟨h1, h2, h3⟩ :=
        ih (dinsert f d k' v') (w + if containsKeyB f d k' then 1 else 0)
          (freshKeys_dinsert f d k' v' hd) hB.of_cons hc' hlB'
      refine ⟨h1, h2, ?_⟩
      have : w ≤ w + if containsKeyB f d k' then 1 else 0 := Nat.le_add_right _ _
      omega

end DictLemmas

/-- Length of the row-major cross-product pair list. -/
lemma prodList_length {K V K2 V2 K3 V3 : Type} (keyC : K → K2 → K3) (valC : V → V2 → V3)
    (A : List (K × V)) (B : List (K2 × V2)) :
    (prodList keyC valC A B).length = A.length * B.length := by
  induction A with
  | nil => simp [prodList]
  | cons p t ih =>
    simp only [prodList, List.length_append, List.length_map, ih, List.length_cons]
    ring

/-!
Claim theorems.
-/

/-- `combine` over chords of one registry, as an if-then-else. -/
lemma combineO_eq_ite (a b : Chord) (hab : a.system = b.system) :
    combineO a b =
      if ((a.keys ∩ b.keys) \ combiningFinset a.system).Nonempty
      then none else some ⟨a.system, a.keys ∪ b.keys⟩ := by
  unfold combineO overlapsNoncombiningO laxCombineO
  rw [if_pos hab, if_pos hab]
  by_cases h : ((a.keys ∩ b.keys) \ combiningFinset a.system).Nonempty
  · simp [h]
  · simp [h]

/-- C1 (amended): `union(A,B)` (the `+` operator) never fails.  Over
disjoint key sets the result is exactly the concatenation, with
`|A|+|B|` entries and no warning; a key present in both dictionaries is
warned about and ends up as a single entry carrying B's value
(last-write-wins) — also when the two values happen to be equal, in which
case that single entry carries the shared value. -/
theorem dict_union_spec {V : Type} (A B : List (Chord × V))
    (hA : FreshKeys chordKeysProj A) (hB : FreshKeys chordKeysProj B) :
    ((∀ p ∈ A, ∀ q ∈ B, p.1.keys ≠ q.1.keys) →
      dictAdd chordKeysProj A B = (A ++ B, 0) ∧
        (dictAdd chordKeysProj A B).1.length = A.length + B.length) ∧
    (∀ (k : Chord) (va vb : V),
      dlookup chordKeysProj A k = some va → dlookup chordKeysProj B k = some vb →
      dlookup chordKeysProj (dictAdd chordKeysProj A B).1 k = some vb ∧
        countKey chordKeysProj (dictAdd chordKeysProj A B).1 k = 1 ∧
        1 ≤ (dictAdd chordKeysProj A B).2) := by
  have h0 : dictAdd chordKeysProj A B = fromPairsAux chordKeysProj A 0 B := by
    rw [dictAdd, fromPairs, fromPairsAux_append_eq,
      fromPairsAux_fresh chordKeysProj A [] 0 hA (fun p _ => rfl)]
    simp
  constructor
  · intro hdisj
    have hdl : ∀ q ∈ B, containsKeyB chordKeysProj A q.1 = false := by
      intro q hq
      rw [containsKeyB_false_iff]
      intro p hp
      exact hdisj p hp q hq
    rw [h0, fromPairsAux_fresh chordKeysProj B A 0 hB hdl]
    simp
  · intro k va vb hva hvb
    have hcA := containsKeyB_of_dlookup chordKeysProj A k va hva
    rw [h0]
    exact fromPairsAux_override chordKeysProj B k vb A 0 hA hB hcA hvb

/-- C1 witness: a shared key (`S-`, values 10 and 20) is overridden with
B's value, collapses to one entry, and raises at least one warning. -/
theorem dict_union_spec_witness :
    FreshKeys chordKeysProj exA ∧ FreshKeys chordKeysProj exB ∧
    dlookup chordKeysProj exA chordS = some 10 ∧
    dlookup chordKeysProj exB chordS = some 20 ∧
    (dlookup chordKeysProj (dictAdd chordKeysProj exA exB).1 chordS = some 20 ∧
      countKey chordKeysProj (dictAdd chordKeysProj exA exB).1 chordS = 1 ∧
      1 ≤ (dictAdd chordKeysProj exA exB).2) := by
  have h1 : FreshKeys chordKeysProj exA := by
    rw [exA, FreshKeys]
    simp [chordKeysProj]
    decide
  have h2 : FreshKeys chordKeysProj exB := by
    rw [exB, FreshKeys]
    simp [chordKeysProj]
    decide
  exact ⟨h1, h2, by decide, by decide,
    (dict_union_spec exA exB h1 h2).2 chordS 10 20 (by decide) (by decide)⟩

/-- C1 counterexample: merging `{A: 1}` with `{A: 2}` — one shared key,
two different values — does not fail: it returns the dictionary
`{A: 2}` together with one duplicate-key warning. -/
theorem dict_union_conflict_counterexample :
    dictAdd chordKeysProj [(chordA, 1)] [(chordA, 2)] = ([(chordA, 2)], 1) := by
  decide

/-- C4: `crossProduct(A,B)` (`Dictionary.combinations`) builds one entry
per pair in row-major order; when no two distinct pairs produce equal
combined keys the result is exactly that pair list (no warning) and has
`|A|·|B|` entries. -/
theorem combinations_product_spec {K V K2 V2 K3 V3 R : Type} [DecidableEq R]
    (f : K3 → R) (keyC : K → K2 → K3) (valC : V → V2 → V3)
    (A : List (K × V)) (B : List (K2 × V2))
    (h : FreshKeys f (prodList keyC valC A B)) :
    combinations f keyC valC A B = (prodList keyC valC A B, 0) ∧
    (combinations f keyC valC A B).1.length = A.length * B.length := by
  have h0 : combinations f keyC valC A B = (prodList keyC valC A B, 0) := by
    rw [combinations, fromPairs, fromPairsAux_fresh f _ [] 0 h (fun p _ => rfl)]
    simp
  refine ⟨h0, ?_⟩
  rw [h0]
  exact prodList_length keyC valC A B

/-- C4 witness: `{S-: 1, T-: 2} × {-F: 3}` with `combine` as the key
combiner yields exactly the two combined entries, `2·1` in total. -/
theorem combinations_product_spec_witness :
    FreshKeys (fun k => k) (prodList combineO (fun a b : Nat => a + b) exCA exCB) ∧
    (combinations (fun k => k) combineO (fun a b : Nat => a + b) exCA exCB =
        (prodList combineO (fun a b : Nat => a + b) exCA exCB, 0) ∧
      (combinations (fun k => k) combineO (fun a b : Nat => a + b) exCA exCB).1.length =
        exCA.length * exCB.length) := by
  have h : FreshKeys (fun k => k) (prodList combineO (fun a b : Nat => a + b) exCA exCB) := by
    rw [FreshKeys]
    decide
  exact ⟨h, combinations_product_spec (fun k => k) combineO (fun a b : Nat => a + b) exCA exCB h⟩

/-- C10: a stored one-element chord tuple is found by looking up the bare
chord, and a stored bare chord is found by looking up its one-element
tuple, both for `__getitem__` and `__contains__`. -/
theorem dict_single_tuple_aliasing {V : Type} (d : List (DKey × V)) (k : Chord) (v : V) :
    (dlookup dkeyProj d (.multi [k]) = some v →
      getItemD d (.single k) = some v ∧ containsD d (.single k) = true) ∧
    (dlookup dkeyProj d (.single k) = some v →
      getItemD d (.multi [k]) = some v ∧ containsD d (.multi [k]) = true) := by
  constructor
  · intro h
    have hc := containsKeyB_of_dlookup dkeyProj d (.multi [k]) v h
    constructor
    · simp only [getItemD, hc, if_true]
      exact h
    · simp [containsD, hc]
  · intro h
    have hc := containsKeyB_of_dlookup dkeyProj d (.single k) v h
    constructor
    · simp only [getItemD, hc, if_true]
      exact h
    · simp [containsD, hc]

/-- C10 witness: in a dictionary storing the tuple `(S-,)`, the bare
chord `S-` retrieves the tuple's value and is reported as contained. -/
theorem dict_single_tuple_aliasing_witness :
    dlookup dkeyProj exD (DKey.multi [chordS]) = some 5 ∧
    (getItemD exD (DKey.single chordS) = some 5 ∧
      containsD exD (DKey.single chordS) = true) :=
  ⟨by decide, (dict_single_tuple_aliasing exD chordS 5).1 (by decide)⟩

/-- C2: over chords of one registry, `combine` fails exactly when the two
chords share a key not declared combining, the failure is symmetric in
the argument order, a success carries the key-set union, `combine` is
commutative, and over pairwise disjoint non-combining key sets it is
associative with the three-way union as result. -/
theorem combine_spec (a b c : Chord) (hab : a.system = b.system) (hbc : b.system = c.system) :
    (combineO a b = none ↔
      ∃ k, k ∈ a.keys ∧ k ∈ b.keys ∧ k ∉ a.system.combiningKeys) ∧
    (combineO a b = none ↔ combineO b a = none) ∧
    (∀ r, combineO a b = some r → r.keys = a.keys ∪ b.keys) ∧
    (∀ r r', combineO a b = some r → combineO b a = some r' → r = r') ∧
    ((a.keys ∩ b.keys) \ combiningFinset a.system = ∅ →
      (a.keys ∩ c.keys) \ combiningFinset a.system = ∅ →
      (b.keys ∩ c.keys) \ combiningFinset a.system = ∅ →
      (combineO a b).bind (fun ab => combineO ab c) =
          (combineO b c).bind (fun bc => combineO a bc) ∧
        (combineO a b).bind (fun ab => combineO ab c) =
          some ⟨a.system, a.keys ∪ b.keys ∪ c.keys⟩) := by
  have hbridge : ((a.keys ∩ b.keys) \ combiningFinset a.system).Nonempty ↔
      ∃ k, k ∈ a.keys ∧ k ∈ b.keys ∧ k ∉ a.system.combiningKeys := by
    simp [Finset.Nonempty, Finset.mem_sdiff, Finset.mem_inter, combiningFinset,
      List.mem_toFinset, and_assoc]
  have hcombBA : combineO b a =
      if ((a.keys ∩ b.keys) \ combiningFinset a.system).Nonempty
      then none else some ⟨a.system, b.keys ∪ a.keys⟩ := by
    rw [combineO_eq_ite b a hab.symm, ← hab, Finset.inter_comm b.keys a.keys]
  refine ⟨?_, ?_, ?_, ?_, ?_⟩
  · rw [combineO_eq_ite a b hab]
    by_cases h : ((a.keys ∩ b.keys) \ combiningFinset a.system).Nonempty
    · rw [if_pos h]
      exact iff_of_true rfl (hbridge.mp h)
    · rw [if_neg h]
      exact iff_of_false (by simp) (fun he => h (hbridge.mpr he))
  · rw [combineO_eq_ite a b hab, hcombBA]
    by_cases h : ((a.keys ∩ b.keys) \ combiningFinset a.system).Nonempty <;> simp [h]
  · intro r hr
    rw [combineO_eq_ite a b hab] at hr
    by_cases h : ((a.keys ∩ b.keys) \ combiningFinset a.system).Nonempty
    · rw [if_pos h] at hr
      exact absurd hr (by simp)
    · rw [if_neg h] at hr
      rw [← Option.some.inj hr]
  · intro r r' hr hr'
    rw [combineO_eq_ite a b hab] at hr
    rw [hcombBA] at hr'
    by_cases h : ((a.keys ∩ b.keys) \ combiningFinset a.system).Nonempty
    · rw [if_pos h] at hr
      exact absurd hr (by simp)
    · rw [if_neg h] at hr
      rw [if_neg h] at hr'
      rw [← Option.some.inj hr, ← Option.some.inj hr']
      rw [Chord.mk.injEq]
      exact ⟨rfl, Finset.union_comm _ _⟩
  · intro h1 h2 h3
    have hac : a.system = c.system := hab.trans hbc
    have e1 : combineO a b = some ⟨a.system, a.keys ∪ b.keys⟩ := by
      rw [combineO_eq_ite a b hab, if_neg (Finset.not_nonempty_iff_eq_empty.mpr h1)]
    have e2 : combineO ⟨a.system, a.keys ∪ b.keys⟩ c =
        some ⟨a.system, a.keys ∪ b.keys ∪ c.keys⟩ := by
      rw [combineO_eq_ite ⟨a.system, a.keys ∪ b.keys⟩ c hac]
      rw [if_neg]
      rw [Finset.not_nonempty_iff_eq_empty]
      rw [Finset.union_inter_distrib_right, Finset.union_sdiff_distrib, h2, h3,
        Finset.union_empty]
    have e3 : combineO b c = some ⟨b.system, b.keys ∪ c.keys⟩ := by
      rw [combineO_eq_ite b c hbc, if_neg]
      rw [Finset.not_nonempty_iff_eq_empty, ← hab]
      exact h3
    have e4 : combineO a ⟨b.system, b.keys ∪ c.keys⟩ =
        some ⟨a.system, a.keys ∪ (b.keys ∪ c.keys)⟩ := by
      rw [combineO_eq_ite a ⟨b.system, b.keys ∪ c.keys⟩ hab, if_neg]
      rw [Finset.not_nonempty_iff_eq_empty]
      rw [Finset.inter_union_distrib_left, Finset.union_sdiff_distrib, h1, h2,
        Finset.union_empty]
    rw [e1, e3]
    simp only [Option.some_bind]
    rw [e2, e4]
    constructor
    · rw [Option.some.injEq, Chord.mk.injEq]
      exact ⟨rfl, Finset.union_assoc _ _ _⟩
    · rfl

/-- C2 witness: scenario chords `{S-}` and `{T-}` of the one scenario
registry; failure of `combine` is symmetric there. -/
theorem combine_spec_witness :
    chordS.system = chordT.system ∧
    (combineO chordS chordT = none ↔ combineO chordT chordS = none) :=
  ⟨rfl, (combine_spec chordS chordT chordF rfl rfl).2.1⟩

/-- C7 (amended): `combine`, `lax_combine`, `remove`, `lax_remove`,
`overlaps`, `overlaps_noncombining`, `is_superset` all fail between
chords of different registries. -/
theorem binary_ops_require_same_registry (a b : Chord) (h : a.system ≠ b.system) :
    combineO a b = none ∧ laxCombineO a b = none ∧ removeO a b = none ∧
    laxRemoveO a b = none ∧ overlapsO a b = none ∧
    overlapsNoncombiningO a b = none ∧ isSupersetO a b = none := by
  unfold combineO laxCombineO removeO laxRemoveO overlapsO overlapsNoncombiningO isSupersetO
  simp [h]

/-- C7 witness: chords of the two distinct handles `sysOne`, `sysTwo`. -/
theorem binary_ops_require_same_registry_witness :
    (Chord.mk sysOne {"A".toList}).system ≠ (Chord.mk sysTwo {"A".toList}).system ∧
    (combineO ⟨sysOne, {"A".toList}⟩ ⟨sysTwo, {"A".toList}⟩ = none ∧
      laxCombineO ⟨sysOne, {"A".toList}⟩ ⟨sysTwo, {"A".toList}⟩ = none ∧
      removeO ⟨sysOne, {"A".toList}⟩ ⟨sysTwo, {"A".toList}⟩ = none ∧
      laxRemoveO ⟨sysOne, {"A".toList}⟩ ⟨sysTwo, {"A".toList}⟩ = none ∧
      overlapsO ⟨sysOne, {"A".toList}⟩ ⟨sysTwo, {"A".toList}⟩ = none ∧
      overlapsNoncombiningO ⟨sysOne, {"A".toList}⟩ ⟨sysTwo, {"A".toList}⟩ = none ∧
      isSupersetO ⟨sysOne, {"A".toList}⟩ ⟨sysTwo, {"A".toList}⟩ = none) :=
  ⟨by decide, binary_ops_require_same_registry _ _ (by decide)⟩

/-- C7 counterexample: between chords of those same two distinct
registries, `mask` succeeds (no registry check) and `==` evaluates to a
Boolean by comparing key sets only — neither fails. -/
theorem mask_and_eq_ignore_registry_counterexample :
    (Chord.mk sysOne {"A".toList}).system ≠ (Chord.mk sysTwo {"A".toList}).system ∧
    maskC ⟨sysOne, {"A".toList}⟩ ⟨sysTwo, {"A".toList}⟩ = ⟨sysOne, {"A".toList}⟩ ∧
    chordEqB ⟨sysOne, {"A".toList}⟩ ⟨sysTwo, {"A".toList}⟩ = true := by
  decide

/-- C6 (amended): for a key chord different from the empty chord,
`toggle(k, v, default=d)` is exactly the 2-entry dictionary
`{k: v, empty: d}`; with the empty chord itself as key the two entries of
the `dict` literal collapse. -/
theorem toggle_two_entries {V : Type} (s : System) (k : Chord) (v d : V)
    (h : k.keys ≠ (emptyChord s).keys) :
    toggleD s k v d = [(k, v), (emptyChord s, d)] := by
  have hc1 : containsKeyB chordKeysProj ([] : List (Chord × V)) k = false := rfl
  rw [toggleD, dinsert_of_not_contains chordKeysProj [] k v hc1]
  have hc2 : containsKeyB chordKeysProj ([] ++ [(k, v)]) (emptyChord s) = false := by
    rw [containsKeyB_false_iff]
    intro p hp
    simp only [List.nil_append, List.mem_singleton] at hp
    subst hp
    exact h
  rw [dinsert_of_not_contains chordKeysProj _ _ d hc2]
  rfl

/-- C6 witness: toggling the chord `{S-}`. -/
theorem toggle_two_entries_witness :
    chordS.keys ≠ (emptyChord scenarioSys).keys ∧
    toggleD scenarioSys chordS (1 : Nat) 0 = [(chordS, 1), (emptyChord scenarioSys, 0)] :=
  ⟨by decide, toggle_two_entries scenarioSys chordS 1 0 (by decide)⟩

/-- C6 counterexample: toggling the empty chord yields a single entry
holding the default — the given value is lost, not a 2-entry dictionary. -/
theorem toggle_empty_chord_counterexample :
    toggleD scenarioSys (emptyChord scenarioSys) (1 : Nat) 0 =
      [(emptyChord scenarioSys, 0)] ∧
    (toggleD scenarioSys (emptyChord scenarioSys) (1 : Nat) 0).length = 1 := by
  decide

/-- C8 (amended): registry construction fails whenever a constituent of
an optional or mandatory replacement rule is not a real key (that is the
only key-name validation `__init__` performs). -/
theorem system_init_validates_replacements (keyOrder unordered combining : List Str)
    (opt mand : List (Str × List Str)) (sid : Nat) (name : Str) (rule : List Str) (k : Str)
    (hmem : (name, rule) ∈ opt ++ mand) (hk : k ∈ rule)
    (hbad : k ∉ allKeys ⟨keyOrder, unordered, combining, opt, mand, sid⟩) :
    ∃ e, systemInit keyOrder unordered combining opt mand sid = Except.error e := by
  simp only [systemInit]
  by_cases h1 : elemStr hyphen
      (middleKeysAndHyphen ⟨keyOrder, unordered, combining, opt, mand, sid⟩) = true
  · by_cases h2 : ((opt ++ mand).all
        (fun p => ruleOk ⟨keyOrder, unordered, combining, opt, mand, sid⟩ p.2)) = true
    · exfalso
      have hr := List.all_eq_true.mp h2 (name, rule) hmem
      rw [ruleOk, Bool.and_eq_true] at hr
      exact hbad ((elemStr_iff _ _).mp (List.all_eq_true.mp hr.1 k hk))
    · exact ⟨SysErr.badReplacement, by rw [if_neg (not_not_intro h1), if_pos h2]⟩
  · exact ⟨SysErr.noSeparator, by rw [if_pos h1]⟩

/-- C8 witness: a replacement rule naming the unknown key `B` makes
construction fail. -/
theorem system_init_validates_replacements_witness :
    (("X-".toList, ["B".toList]) ∈
        ([("X-".toList, ["B".toList])] : List (Str × List Str)) ++
          ([] : List (Str × List Str))) ∧
    "B".toList ∈ ["B".toList] ∧
    "B".toList ∉ allKeys ⟨["A".toList, "-".toList], [], [],
      [("X-".toList, ["B".toList])], [], 3⟩ ∧
    ∃ e, systemInit ["A".toList, "-".toList] [] [] [("X-".toList, ["B".toList])] [] 3 =
      Except.error e :=
  ⟨by decide, by decide, by decide,
    system_init_validates_replacements ["A".toList, "-".toList] [] []
      [("X-".toList, ["B".toList])] [] 3 "X-".toList ["B".toList] "B".toList
      (by decide) (by decide) (by decide)⟩

/-- C8 counterexample: unknown names in the unordered-keys and
combining-keys lists are not validated — construction succeeds. -/
theorem system_init_unvalidated_lists_counterexample :
    systemInit ["A".toList, "-".toList] ["ZZZ".toList] ["QQQ".toList] [] [] 7 =
      Except.ok ⟨["A".toList, "-".toList], ["ZZZ".toList], ["QQQ".toList], [], [], 7⟩ ∧
    "ZZZ".toList ∉ allKeys ⟨["A".toList, "-".toList], ["ZZZ".toList], ["QQQ".toList], [], [], 7⟩ ∧
    "QQQ".toList ∉ allKeys ⟨["A".toList, "-".toList], ["ZZZ".toList], ["QQQ".toList], [], [], 7⟩ := by
  decide

/-- C3 (amended): in the spec's four-key scenario registry every chord
renders unambiguously (the 16 rendered texts are pairwise distinct) and
the round trip `render(parse(render(x))) == render(x)` holds for every
chord. -/
theorem scenario_roundtrip_stable :
    (scenarioSubsets.map (fun ks => ploverStr (sysChord scenarioSys ks))).Nodup ∧
    ∀ ks ∈ scenarioSubsets, scenarioRoundtrip ks = true := by
  constructor
  · decide
  · decide

/-- C3 witness: the round trip at the scenario chord `{S-, T-}`. -/
theorem scenario_roundtrip_stable_witness :
    (["S-".toList, "T-".toList] ∈ scenarioSubsets) ∧
    scenarioRoundtrip ["S-".toList, "T-".toList] = true :=
  ⟨by decide, scenario_roundtrip_stable.2 ["S-".toList, "T-".toList] (by decide)⟩

/-- C3 counterexample: in the valid registry with keys `A` and `AB`, the
chord `{AB}` renders to a text that is unambiguous (all four chords of
the registry render pairwise differently), yet parsing that rendering
fails, so `render(parse(render(x)))` is not defined, let alone equal to
`render(x)`. -/
theorem roundtrip_counterexample :
    parseChord cexSys (ploverStr (sysChord cexSys ["AB".toList])) = Except.error false ∧
    (cexSubsets.map (fun ks => ploverStr (sysChord cexSys ks))).Nodup := by
  decide

/-- On empty remaining input, a pseudo key with nonempty stripped text is
never consumed. -/
lemma tryConsumeOne_empty (s : System) (p : Str) (st : ScanSt)
    (hl : st.left = []) (hp : stripHyphens p ≠ []) :
    tryConsumeOne s p st = (st, false) := by
  cases hw : stripHyphens p with
  | nil => exact absurd hw hp
  | cons c t => simp [tryConsumeOne, hl, hw, List.isPrefixOf]

/-- On empty remaining input a fold of consumption attempts is a no-op. -/
lemma foldl_tryConsume_empty (s : System) (st : ScanSt) (hl : st.left = []) :
    ∀ l : List Str, (∀ p ∈ l, stripHyphens p ≠ []) →
      l.foldl
        (fun acc p =>
          let r := tryConsumeOne s p acc.1
          (r.1, acc.2 || r.2))
        (st, false) = (st, false) := by
  intro l
  induction l with
  | nil => intro _; rfl
  | cons p t ih =>
    intro h
    have hp' := h p (List.mem_cons_self _ _)
    simp only [List.foldl_cons, tryConsumeOne_empty s p st hl hp', Bool.or_false]
    exact ih (fun q hq => h q (List.mem_cons_of_mem _ hq))

/-- On empty remaining input an unordered-drain pass is a no-op. -/
lemma drainPass_empty (s : System) (st : ScanSt) (hl : st.left = [])
    (h : ∀ p ∈ allUnordered s, stripHyphens p ≠ []) :
    drainPass s st = (st, false) := by
  rw [drainPass]
  exact foldl_tryConsume_empty s st hl (allUnordered s) h

/-- On empty remaining input the whole drain loop is a no-op. -/
lemma drain_empty (s : System) (st : ScanSt) (hl : st.left = [])
    (h : ∀ p ∈ allUnordered s, stripHyphens p ≠ []) :
    drain s st = st := by
  rw [drain, hl]
  show drainAux s (0 + 1) st = st
  rw [drainAux, drainPass_empty s st hl h]
  simp

/-- On empty remaining input a whole positional phase is a no-op. -/
lemma consumeAll_empty (s : System) (st : ScanSt) (hl : st.left = [])
    (hu : ∀ p ∈ allUnordered s, stripHyphens p ≠ []) :
    ∀ keys, (∀ p ∈ keys, stripHyphens p ≠ []) → consumeAll s keys st = st := by
  intro keys
  induction keys with
  | nil => intro _; rfl
  | cons p t ih =>
    intro hk
    rw [consumeAll]
    simp only [List.foldl_cons]
    have hstep : (tryConsumeOne s p (drain s st)).1 = st := by
      rw [drain_empty s st hl hu, tryConsumeOne_empty s p st hl
        (hk p (List.mem_cons_self _ _))]
    rw [hstep]
    exact ih (fun q hq => hk q (List.mem_cons_of_mem _ hq))

/-- The scan of the empty string stays put when every token text is
nonempty after hyphen stripping. -/
lemma scanChord_empty (s : System)
    (hu : ∀ p ∈ allUnordered s, stripHyphens p ≠ [])
    (hlk : ∀ p ∈ leftPseudoKeys s ++ leftMiddlePseudoKeys s, stripHyphens p ≠ [])
    (hrk : ∀ p ∈ rightMiddlePseudoKeys s ++ rightPseudoKeys s, stripHyphens p ≠ []) :
    scanChord s [] = ⟨[], []⟩ := by
  rw [scanChord]
  have h0 : (⟨[], []⟩ : ScanSt).left = [] := rfl
  rw [consumeAll_empty s ⟨[], []⟩ h0 hu _ hlk, drain_empty s ⟨[], []⟩ h0 hu]
  have h3 : startsWithHyphen (⟨[], []⟩ : ScanSt).left = false := rfl
  rw [h3]
  simp only [Bool.false_eq_true, if_false]
  rw [consumeAll_empty s ⟨[], []⟩ h0 hu _ hrk, drain_empty s ⟨[], []⟩ h0 hu]

/-- C9 (amended): for every registry whose pseudo-key and unordered
tokens all have nonempty hyphen-stripped text (every real registry —
only an empty-named replacement rule violates it), parsing the empty
string succeeds with no error and no steno-order warning and returns the
empty chord. -/
theorem parse_empty_chord (s : System)
    (hu : ∀ p ∈ allUnordered s, stripHyphens p ≠ [])
    (hlk : ∀ p ∈ leftPseudoKeys s ++ leftMiddlePseudoKeys s, stripHyphens p ≠ [])
    (hrk : ∀ p ∈ rightMiddlePseudoKeys s ++ rightPseudoKeys s, stripHyphens p ≠ []) :
    parseChord s [] = Except.ok (emptyChord s, false) := by
  rw [parseChord, scanChord_empty s hu hlk hrk]
  simp [missingSepCond, containsHyphen, sysChord, emptyChord, realKeysOrderedL, isSortedNat]

/-- C9 witness: the scenario registry parses `""` to its empty chord. -/
theorem parse_empty_chord_witness :
    (∀ p ∈ allUnordered scenarioSys, stripHyphens p ≠ []) ∧
    (∀ p ∈ leftPseudoKeys scenarioSys ++ leftMiddlePseudoKeys scenarioSys,
      stripHyphens p ≠ []) ∧
    (∀ p ∈ rightMiddlePseudoKeys scenarioSys ++ rightPseudoKeys scenarioSys,
      stripHyphens p ≠ []) ∧
    parseChord scenarioSys [] = Except.ok (emptyChord scenarioSys, false) :=
  ⟨by decide, by decide, by decide,
    parse_empty_chord scenarioSys (by decide) (by decide) (by decide)⟩

/-- C9 counterexample: the constructible registry `emptyNameSys` (an
optional replacement named `""` expanding to `A`) parses the empty
string successfully but to the chord `{A}`, not the empty chord. -/
theorem parse_empty_nonempty_counterexample :
    parseChord emptyNameSys [] = Except.ok (sysChord emptyNameSys ["A".toList], false) ∧
    (sysChord emptyNameSys ["A".toList]).keys ≠ (emptyChord emptyNameSys).keys := by
  decide

/-- C5: parsing raises a hard failure exactly when text remains after the
scan or the missing-separator condition holds; a raised error carries the
dedicated missing-separator diagnostic exactly when that condition holds;
and otherwise the chord built from the scanned keys is returned, with the
steno-order violation reported only through the non-fatal warning flag.
(The hypothesis keeps every unordered key a real key, the regime in which
the embedded scanner agrees with the source for all inputs.) -/
theorem parse_error_conditions (s : System) (input : Str)
    (hu : ∀ u ∈ s.unorderedKeys, u ∈ allKeys s) :
    ((∃ e, parseChord s input = Except.error e) ↔
      ((scanChord s input).left ≠ [] ∨
        missingSepCond s input (scanChord s input).out = true)) ∧
    (∀ e, parseChord s input = Except.error e →
      e = missingSepCond s input (scanChord s input).out) ∧
    (∀ c w, parseChord s input = Except.ok (c, w) →
      c = sysChord s (scanChord s input).out ∧
      w = !realKeysOrderedL s (scanChord s input).out) := by
  have hdef : parseChord s input =
      if missingSepCond s input (scanChord s input).out
          || decide ((scanChord s input).left ≠ []) then
        Except.error (missingSepCond s input (scanChord s input).out)
      else
        Except.ok (sysChord s (scanChord s input).out,
          !realKeysOrderedL s (scanChord s input).out) := rfl
  by_cases hcond : (missingSepCond s input (scanChord s input).out
      || decide ((scanChord s input).left ≠ [])) = true
  · rw [hdef, if_pos hcond]
    refine ⟨?_, ?_, ?_⟩
    · refine iff_of_true ⟨_, rfl⟩ ?_
      have hor := hcond
      rw [Bool.or_eq_true] at hor
      rcases hor with h | h
      · exact Or.inr h
      · exact Or.inl (of_decide_eq_true h)
    · intro e he
      exact (Except.error.inj he).symm
    · intro c w he
      exact absurd he (fun hc => Except.noConfusion hc)
  · rw [hdef, if_neg hcond]
    rw [Bool.or_eq_true] at hcond
    rw [not_or] at hcond
    refine ⟨?_, ?_, ?_⟩
    · refine iff_of_false ?_ ?_
      · rintro ⟨e, he⟩
        exact Except.noConfusion he
      · rintro (h | h)
        · exact hcond.2 (decide_eq_true h)
        · exact hcond.1 h
    · intro e he
      exact absurd he (fun hc => Except.noConfusion hc)
    · intro c w he
      have := Except.ok.inj he
      exact ⟨(congrArg Prod.fst this).symm, (congrArg Prod.snd this).symm⟩

/-- C5 witness: the scenario registry on the input `"F"`, which scans
cleanly but hits the dedicated missing-separator diagnostic. -/
theorem parse_error_conditions_witness :
    (∀ u ∈ scenarioSys.unorderedKeys, u ∈ allKeys scenarioSys) ∧
    (((∃ e, parseChord scenarioSys ['F'] = Except.error e) ↔
      ((scanChord scenarioSys ['F']).left ≠ [] ∨
        missingSepCond scenarioSys ['F'] (scanChord scenarioSys ['F']).out = true)) ∧
    (∀ e, parseChord scenarioSys ['F'] = Except.error e →
      e = missingSepCond scenarioSys ['F'] (scanChord scenarioSys ['F']).out) ∧
    (∀ c w, parseChord scenarioSys ['F'] = Except.ok (c, w) →
      c = sysChord scenarioSys (scanChord scenarioSys ['F']).out ∧
      w = !realKeysOrderedL scenarioSys (scanChord scenarioSys ['F']).out)) :=
  ⟨by decide, parse_error_conditions scenarioSys ['F'] (by decide)⟩

end Plovary
